import Mathlib

set_option linter.unusedVariables false

/-!
Shallow embedding of the gru configuration-management orchestrator:
the catalog engine (src/catalog/catalog.go, src/module/module.go) and the
etcd-backed minion runtime (src/minion/etcd.go).  External collaborators
that are not part of the repository sources (the `graph` and `resource`
packages, the `MinionTask` structure and classifier types) are modelled
from the specification, as marked on each definition.
-/

namespace Gru

/-! ### Directed graph (the `graph` package, absent from src/) -/

/-- Modelled from the spec: the `graph` package's directed graph over
string-keyed nodes.  An edge `A → B` reads "A depends on B". -/
structure Graph where
  nodes : List String
  edges : List (String × String)
deriving Repr, DecidableEq

/-- Modelled from the spec: `graph.New` / `graph.NewGraph` create an empty graph. -/
def Graph.new : Graph := { nodes := [], edges := [] }

/-- Modelled from the spec: `GetNode(name)` looks a node up by name. -/
def Graph.getNode (g : Graph) (n : String) : Option String :=
  g.nodes.find? (fun x => x == n)

/-- Modelled from the spec: `AddNode`; adding a duplicate node is idempotent. -/
def Graph.addNode (g : Graph) (n : String) : Graph :=
  if n ∈ g.nodes then g else { g with nodes := g.nodes ++ [n] }

/-- Modelled from the spec: `AddEdge(from,to)`; adding an edge twice is a
no-op and adding an edge to an unknown node is an error (no mutation). -/
def Graph.addEdge (g : Graph) (a b : String) : Graph :=
  if a ∈ g.nodes ∧ b ∈ g.nodes then
    if (a, b) ∈ g.edges then g else { g with edges := g.edges ++ [(a, b)] }
  else g

/-- Lexicographic order on character lists, by code point. -/
def charListLt : List Char → List Char → Bool
  | [], [] => false
  | [], _ :: _ => true
  | _ :: _, [] => false
  | a :: as, b :: bs =>
    if a.toNat < b.toNat then true
    else if b.toNat < a.toNat then false
    else charListLt as bs

/-- Lexicographic order on strings, by code point. -/
def strLt (a b : String) : Bool := charListLt a.data b.data

/-- Lexicographically smallest element of a list of strings, if any. -/
def minString : List String → Option String
  | [] => none
  | x :: xs => some (xs.foldl (fun a b => if strLt b a then b else a) x)

/-- Modelled from the spec: one Kahn round — a node is ready when it has no
outgoing edge (no unsatisfied dependency) among the remaining nodes; ties are
broken by lexicographic node name.  The fuel argument only bounds recursion. -/
def sortAux : Nat → List String → List (String × String) → List String →
    Except (List String) (List String)
  | _, [], _, acc => .ok acc.reverse
  | 0, remaining, _, _ => .error remaining
  | fuel+1, remaining, edges, acc =>
    let ready := remaining.filter (fun n => edges.all (fun e => e.fst != n))
    match minString ready with
    | none => .error remaining
    | some n =>
      sortAux fuel (remaining.erase n)
        (edges.filter (fun e => e.snd != n)) (n :: acc)

/-- Modelled from the spec: `Sort()` returns the nodes in dependency-first
order, or a circular-dependency error carrying the residual nodes. -/
def Graph.Sort (g : Graph) : Except (List String) (List String) :=
  sortAux g.nodes.length g.nodes g.edges []

/-- Modelled from the spec: `graph.ErrCircularDependency` as a message. -/
def circularDependencyError : String := "Circular dependency found in the graph"

/-! ### Resources (the `resource` package, absent from src/) -/

/-- Modelled from the spec: `resource.StatePresent`. -/
def StatePresent : String := "present"
/-- Modelled from the spec: `resource.StateRunning`. -/
def StateRunning : String := "running"
/-- Modelled from the spec: `resource.StateAbsent`. -/
def StateAbsent : String := "absent"
/-- Modelled from the spec: `resource.StateStopped`. -/
def StateStopped : String := "stopped"

/-- Modelled from the spec: `resource.State` — the declared and observed
life-state of a resource plus the out-of-date flag.  Life-states are string
constants in the source, so they are kept as strings here. -/
structure State where
  Want : String
  Current : String
  Update : Bool
deriving Repr, DecidableEq

instance {ε α : Type} [DecidableEq ε] [DecidableEq α] : DecidableEq (Except ε α) :=
  fun a b =>
    match a, b with
    | .error e1, .error e2 =>
      if h : e1 = e2 then .isTrue (by subst h; rfl)
      else .isFalse (fun hh => by cases hh; exact h rfl)
    | .ok a1, .ok a2 =>
      if h : a1 = a2 then .isTrue (by subst h; rfl)
      else .isFalse (fun hh => by cases hh; exact h rfl)
    | .error _, .ok _ => .isFalse (fun hh => by cases hh)
    | .ok _, .error _ => .isFalse (fun hh => by cases hh)

/-- Modelled from the spec: the `resource.Resource` capability set.
A resource value carries its identifier, its ordering declarations and the
observable outcome of each capability call: `Evaluate` yields a `State` or an
error, and `Create`/`Delete`/`Update` yield `none` on success or an error
message. -/
structure Resource where
  ResourceID : String
  WantBefore : List String
  WantAfter : List String
  Evaluate : Except String State
  Create : Option String
  Delete : Option String
  Update : Option String
deriving Repr, DecidableEq

/-- Stand-in for Go's nil map lookup result; unreachable in the modelled paths. -/
def defaultResource : Resource :=
  { ResourceID := "", WantBefore := [], WantAfter := [],
    Evaluate := .error "", Create := none, Delete := none, Update := none }

/-! ### Modules (src/module/module.go) -/

/-- An `Import` declaration: name and path of the imported module
(src/module/module.go, type Import). -/
structure Import where
  Name : String
  Path : String
deriving Repr, DecidableEq

/-- A module: a named collection of resources and imports
(src/module/module.go, type Module). -/
structure Module where
  Name : String
  Resources : List Resource
  Imports : List Import
  UnknownKeys : List String
deriving Repr, DecidableEq

/-- Stand-in for Go's nil map lookup result; unreachable in the modelled paths. -/
def defaultModule (name : String) : Module :=
  { Name := name, Resources := [], Imports := [], UnknownKeys := [] }

/-- First-match association-list lookup, the model of a Go map read. -/
def alookup {α : Type} : List (String × α) → String → Option α
  | [], _ => none
  | (k, v) :: rest, key => if k = key then some v else alookup rest key

/-! ### Building the module import graph (src/module/module.go, ImportGraph) -/

/-- Fuel bound for the import recursion: one unit per module plus one per
declared import, which dominates any call-stack depth of the source recursion. -/
def importFuel (modules : List (String × Module)) : Nat :=
  modules.foldl (fun acc p => acc + p.snd.Imports.length + 1) 1

mutual

/-- The body of `buildImportGraphFunc` in src/module/module.go: a module
already present in the graph is skipped (reentry guard), otherwise its node
is added and its imports are processed.  The fuel argument only bounds the
recursion and is never exhausted when starting from `importFuel`. -/
def buildImportGraphFunc (modules : List (String × Module)) :
    Nat → Graph → Module → Graph × Option String
  | 0, g, _ => (g, none)
  | fuel+1, g, m =>
    if (g.getNode m.Name).isSome then (g, none)
    else buildImportEdges modules fuel (g.addNode m.Name) m.Name m.Imports

/-- The `for _, mi := range m.Imports` loop of `buildImportGraphFunc`:
a missing import target aborts with an error, otherwise the imported module
is processed recursively — with the recursive call's error DISCARDED, exactly
as in the source — and the edge from importer to imported is added. -/
def buildImportEdges (modules : List (String × Module)) :
    Nat → Graph → String → List Import → Graph × Option String
  | _, g, _, [] => (g, none)
  | 0, g, _, _ :: _ => (g, none)
  | fuel+1, g, mName, mi :: rest =>
    match alookup modules mi.Name with
    | none =>
      (g, some ("Module " ++ mName ++ " imports " ++ mi.Name ++
        ", which is not in the module path"))
    | some m2 =>
      let r := buildImportGraphFunc modules fuel g m2
      buildImportEdges modules fuel (Graph.addEdge r.fst mName mi.Name) mName rest

end

/-- `module.ImportGraph(main, path)` (src/module/module.go): the module map
discovered from `path` by `DiscoverAndLoad` is abstracted as the `modules`
argument; if `main` is absent the build fails, otherwise the import graph is
built rooted at `main`. -/
def ImportGraph (main : String) (modules : List (String × Module)) :
    Graph × Option String :=
  match alookup modules main with
  | none => (Graph.new, some ("Module " ++ main ++ " not found in module path"))
  | some mainMod => buildImportGraphFunc modules (importFuel modules) Graph.new mainMod

/-! ### Resource collection (src/module/module.go, ResourceCollection) -/

/-- The inner `for _, r := range m.Resources` loop of `ResourceCollection`:
each resource id is recorded together with its declaring module; a duplicate
id aborts with an error naming the id, the current module and the module of
the previous declaration. -/
def collectResources (mName : String) :
    List Resource → List (String × String) → List (String × Resource) →
    (List (String × String) × List (String × Resource)) × Option String
  | [], moduleMap, resourceMap => ((moduleMap, resourceMap), none)
  | r :: rest, moduleMap, resourceMap =>
    let id := r.ResourceID
    match alookup resourceMap id with
    | some _ =>
      ((moduleMap, resourceMap),
        some ("Duplicate resource " ++ id ++ " in " ++ mName ++
          ", previous declaration was in " ++ (alookup moduleMap id).getD ""))
    | none =>
      collectResources mName rest (moduleMap ++ [(id, mName)])
        (resourceMap ++ [(id, r)])

/-- The outer `for _, m := range modules` loop of `ResourceCollection`. -/
def resourceCollectionAux :
    List Module → List (String × String) → List (String × Resource) →
    (List (String × String) × List (String × Resource)) × Option String
  | [], moduleMap, resourceMap => ((moduleMap, resourceMap), none)
  | m :: rest, moduleMap, resourceMap =>
    match collectResources m.Name m.Resources moduleMap resourceMap with
    | (st, some e) => (st, some e)
    | ((moduleMap2, resourceMap2), none) =>
      resourceCollectionAux rest moduleMap2 resourceMap2

/-- `module.ResourceCollection` (src/module/module.go): the map of unique
resources contained in the provided modules, or a duplicate-resource error. -/
def ResourceCollection (modules : List Module) :
    List (String × Resource) × Option String :=
  match resourceCollectionAux modules [] [] with
  | ((_, resourceMap), e) => (resourceMap, e)

/-! ### Resource dependency graph (src/module/module.go, ResourceCollectionGraph) -/

/-- The missing-dependency error of `ResourceCollectionGraph`. -/
def errMissing (name dep : String) : String :=
  "Resource " ++ name ++ " wants " ++ dep ++ ", which does not exist"

/-- The `for _, dep := range after` loop of `ResourceCollectionGraph`:
a dependency absent from the collection aborts, otherwise the edge
current → dependency is added. -/
def addAfterEdges (resources : List (String × Resource)) (name : String) :
    Graph → List String → Graph × Option String
  | g, [] => (g, none)
  | g, dep :: rest =>
    if (alookup resources dep).isSome then
      addAfterEdges resources name (g.addEdge name dep) rest
    else (g, some (errMissing name dep))

/-- The `for _, dep := range before` loop of `ResourceCollectionGraph`:
a dependency absent from the collection aborts, otherwise the edge
dependency → current is added. -/
def addBeforeEdges (resources : List (String × Resource)) (name : String) :
    Graph → List String → Graph × Option String
  | g, [] => (g, none)
  | g, dep :: rest =>
    if (alookup resources dep).isSome then
      addBeforeEdges resources name (g.addEdge dep name) rest
    else (g, some (errMissing name dep))

/-- The `for name, r := range resources` loop of `ResourceCollectionGraph`,
processing each resource's `WantAfter` list and then its `WantBefore` list.
Go map iteration order is unspecified; it is determinized here as the
collection's insertion order. -/
def connectResources (resources : List (String × Resource)) :
    List (String × Resource) → Graph → Graph × Option String
  | [], g => (g, none)
  | (name, r) :: rest, g =>
    match addAfterEdges resources name g r.WantAfter with
    | (g2, some e) => (g2, some e)
    | (g2, none) =>
      match addBeforeEdges resources name g2 r.WantBefore with
      | (g3, some e) => (g3, some e)
      | (g3, none) => connectResources resources rest g3

/-- `module.ResourceCollectionGraph` (src/module/module.go): every resource id
becomes a node, then ordering edges are derived from `WantAfter`/`WantBefore`.
`Catalog.Load` reaches it through the collection's `DependencyGraph` method. -/
def ResourceCollectionGraph (resources : List (String × Resource)) :
    Graph × Option String :=
  let g := resources.foldl (fun g p => g.addNode p.fst) Graph.new
  connectResources resources resources g

/-- The dependency edges the spec prescribes for a collection: `a → b` when
resource `a` wants to run after `b`, or resource `b` wants to run before
`a`. -/
def EdgeSpec (l : List (String × Resource)) (a b : String) : Prop :=
  (∃ r, (a, r) ∈ l ∧ b ∈ r.WantAfter) ∨ (∃ r, (b, r) ∈ l ∧ a ∈ r.WantBefore)

/-- Every `WantAfter`/`WantBefore` target of every resource of the
collection is itself in the collection. -/
def allDepsPresent (resources : List (String × Resource)) : Prop :=
  ∀ p ∈ resources,
    (∀ d ∈ p.snd.WantAfter, (alookup resources d).isSome = true) ∧
    (∀ d ∈ p.snd.WantBefore, (alookup resources d).isSome = true)

/-! ### The catalog (src/catalog/catalog.go) -/

/-- Catalog configuration (src/catalog/catalog.go, type Config): the module
path and resource writer held by `ModuleConfig` are abstracted away — the
loaded module map is a parameter of `Load` and writes are trace events. -/
structure Config where
  Main : String
  DryRun : Bool
deriving Repr, DecidableEq

/-- A catalog: sorted modules, sorted resources, configuration
(src/catalog/catalog.go, type Catalog). -/
structure Catalog where
  Modules : List Module
  Resources : List Resource
  Config : Config
deriving Repr, DecidableEq

/-- Observable steps of a catalog run: a line written to the configured
writer (without the trailing newline), or a `Create`/`Delete`/`Update`
call on the resource with the given id. -/
inductive Event where
  | write (line : String)
  | create (id : String)
  | delete (id : String)
  | update (id : String)
deriving Repr, DecidableEq

/-- True for the actuation events `create`, `delete` and `update`. -/
def Event.isAction : Event → Bool
  | .write _ => false
  | _ => true

/-- The code after the `switch` in `Catalog.Run`'s loop body: the action
report lines and actuation call collected by the switch come first, then a
non-nil `resourceErr` is written, then — whether or not the life-state action
failed — `Update` is called when `State.Update` is set, preceded by its
report line and followed by its error if it fails. -/
def afterSwitch (id : String) (state : State) (r : Resource)
    (pre : List Event) (resourceErr : Option String) : List Event :=
  pre ++
  (match resourceErr with
   | some e => [Event.write (id ++ " " ++ e)]
   | none => []) ++
  (if state.Update then
    [Event.write (id ++ " resource is out of date, will be updated"),
      Event.update id] ++
    (match r.Update with
     | some e => [Event.write (id ++ " " ++ e)]
     | none => [])
   else [])

/-- One iteration of the `for _, r := range c.Resources` loop of
`Catalog.Run` (src/catalog/catalog.go): evaluate, log evaluation errors and
continue, skip everything else under DryRun, then drive the transition
switch on `(Want, Current)`. -/
def runResource (dryRun : Bool) (r : Resource) : List Event :=
  let id := r.ResourceID
  match r.Evaluate with
  | .error e => [Event.write (id ++ " " ++ e)]
  | .ok state =>
    if dryRun then []
    else if state.Want = state.Current then
      afterSwitch id state r [] none
    else if state.Want = StatePresent ∨ state.Want = StateRunning then
      if state.Current = StateAbsent ∨ state.Current = StateStopped then
        afterSwitch id state r
          [Event.write (id ++ " is " ++ state.Current ++ ", should be " ++ state.Want),
            Event.create id] r.Create
      else afterSwitch id state r [] none
    else if state.Want = StateAbsent ∨ state.Want = StateStopped then
      if state.Current = StatePresent ∨ state.Current = StateRunning then
        afterSwitch id state r
          [Event.write (id ++ " is " ++ state.Current ++ ", should be " ++ state.Want),
            Event.delete id] r.Delete
      else afterSwitch id state r [] none
    else
      [Event.write (id ++ " unknown state(s): want " ++ state.Want ++
        ", current " ++ state.Current)]

/-- The header line `Catalog.Run` writes before its loop. -/
def runHeader (c : Catalog) : Event :=
  Event.write ("Loaded " ++ toString c.Resources.length ++ " resources from " ++
    toString c.Modules.length ++ " modules")

/-- `Catalog.Run` (src/catalog/catalog.go): writes the header, processes each
resource in order, and always returns a nil error. -/
def Catalog.Run (c : Catalog) : List Event × Option String :=
  (runHeader c :: (c.Resources.map (runResource c.Config.DryRun)).flatten, none)

/-- `catalog.Load` (src/catalog/catalog.go): builds and sorts the module
graph of imports, collects unique resources from the sorted modules, builds and
sorts the resource dependency graph.  `DiscoverAndLoad` (a filesystem walk)
is abstracted as the `modules` map, which the source computes identically for
the `DiscoverAndLoad` and `ImportGraph` calls. -/
def Load (config : Config) (modules : List (String × Module)) :
    Catalog × Option String :=
  let c0 : Catalog := { Modules := [], Resources := [], Config := config }
  match ImportGraph config.Main modules with
  | (_, some e) => (c0, some e)
  | (modulesGraph, none) =>
    match modulesGraph.Sort with
    | .error _ => (c0, some circularDependencyError)
    | .ok modulesSorted =>
      let c1 := { c0 with
        Modules := modulesSorted.map (fun n => (alookup modules n).getD (defaultModule n)) }
      match ResourceCollection c1.Modules with
      | (_, some e) => (c1, some e)
      | (collection, none) =>
        match ResourceCollectionGraph collection with
        | (_, some e) => (c1, some e)
        | (collectionGraph, none) =>
          match collectionGraph.Sort with
          | .error _ => (c1, some circularDependencyError)
          | .ok collectionSorted =>
            ({ c1 with
              Resources := collectionSorted.map
                (fun n => (alookup collection n).getD defaultResource) }, none)

/-! ### The minion runtime (src/minion/etcd.go) -/

/-- Modelled from the spec: the `MinionTask` structure (declared outside the
available sources; fields follow the spec's data model).  `TaskID` is a UUID
rendered as a string; times are epoch seconds. -/
structure MinionTask where
  TaskID : String
  Command : String
  Args : List String
  IsConcurrent : Bool
  TimeReceived : Int
  TimeProcessed : Int
  Result : String
  Error : String
deriving Repr, DecidableEq

/-- An etcd node as seen by the minion: a key and its string value. -/
structure EtcdNode where
  Key : String
  Value : String
deriving Repr, DecidableEq

/-- Observable steps of the minion runtime against the store and the
in-process task channel: a recursive/sorted Get on a directory, a key
deletion, a task published to the task channel, and a key set to a value. -/
inductive MinionEvent where
  | get (key : String) (recursive sorted : Bool)
  | deleteKey (key : String)
  | publish (t : MinionTask)
  | set (key value : String)
deriving Repr, DecidableEq

/-- Tasks published to the task channel, in order, within a minion trace. -/
def published : List MinionEvent → List MinionTask
  | [] => []
  | .publish t :: rest => t :: published rest
  | _ :: rest => published rest

/-- Keys deleted from the store, in order, within a minion trace. -/
def deletions : List MinionEvent → List String
  | [] => []
  | .deleteKey k :: rest => k :: deletions rest
  | _ :: rest => deletions rest

/-- The `for _, node := range backlog` loop of `checkQueue`
(src/minion/etcd.go): each entry is deserialized (`EtcdUnmarshalTask`,
abstracted as the `decode` parameter standing for `json.Unmarshal`), its key
is deleted unconditionally, and on deserialization failure the entry is
skipped — after the deletion — otherwise the task is published. -/
def drainBacklog (decode : String → Except String MinionTask) :
    List EtcdNode → List MinionEvent
  | [] => []
  | node :: rest =>
    MinionEvent.deleteKey node.Key ::
      (match decode node.Value with
       | .error _ => drainBacklog decode rest
       | .ok t => MinionEvent.publish t :: drainBacklog decode rest)

/-- `checkQueue` (src/minion/etcd.go): lists the queue directory with
`Recursive: true, Sort: true`; a store error or an empty backlog yields no
further events; otherwise the backlog is drained entry by entry.  The store
response to the sorted recursive Get is abstracted as the `resp` parameter;
the function returns nil in every path. -/
def checkQueue (decode : String → Except String MinionTask) (queueDir : String)
    (resp : Except String (List EtcdNode)) : List MinionEvent × Option String :=
  (MinionEvent.get queueDir true true ::
    (match resp with
     | .error _ => []
     | .ok nodes => if nodes.isEmpty then [] else drainBacklog decode nodes),
   none)

/-- ASCII lowercasing of one character, the part of `strings.ToLower`
relevant to the listener's action comparison. -/
def charToLower (c : Char) : Char :=
  if 65 ≤ c.toNat ∧ c.toNat ≤ 90 then Char.ofNat (c.toNat + 32) else c

/-- ASCII lowercasing of a string, the model of `strings.ToLower` as used by
the listener (action names are ASCII). -/
def toLowerStr (s : String) : String := String.mk (s.data.map charToLower)

/-- One watch response delivered to the task listener: the action string and
the node it concerns. -/
structure WatchResponse where
  Action : String
  Node : EtcdNode
deriving Repr, DecidableEq

/-- One turn of the `for` loop of `TaskListener` (src/minion/etcd.go): a
watch error is logged and the loop continues; an action equal to "delete"
after lowercasing (the `strings.ToLower`/`strings.EqualFold` test) is
ignored; any other action has its node deserialized, its key deleted, and —
when deserialization succeeded — its task published. -/
def taskListenerStep (decode : String → Except String MinionTask)
    (resp : Except String WatchResponse) : List MinionEvent :=
  match resp with
  | .error _ => []
  | .ok resp =>
    if toLowerStr resp.Action = "delete" then []
    else
      MinionEvent.deleteKey resp.Node.Key ::
        (match decode resp.Node.Value with
         | .error _ => []
         | .ok t => [MinionEvent.publish t])

/-- `TaskListener` (src/minion/etcd.go) over a finite stream of watch
responses: the concatenation of the per-response behavior. -/
def TaskListener (decode : String → Except String MinionTask)
    (resps : List (Except String WatchResponse)) : List MinionEvent :=
  (resps.map (taskListenerStep decode)).flatten

/-- Outcome of running the child command: the merged stdout and stderr
captured in the shared buffer, and the error from `cmd.Run` (`none` when the
command succeeded). -/
structure CmdResult where
  output : String
  err : Option String
deriving Repr, DecidableEq

/-- `saveTask` (src/minion/etcd.go): the task is serialized to JSON
(`json.Marshal`, abstracted as the total `marshal` parameter — it cannot
fail on this structure) and written under the minion's log directory keyed
by the task id (`filepath.Join` modelled as a slash). -/
def saveTask (marshal : MinionTask → String) (logDir : String)
    (t : MinionTask) : List MinionEvent :=
  [MinionEvent.set (logDir ++ "/" ++ t.TaskID) (marshal t)]

/-- `processTask` (src/minion/etcd.go): runs the child command (its outcome
abstracted as `cmd`), stamps `TimeProcessed` with the completion time,
stores the merged output in `Result`, overwrites `Error` with the child's
error string only when the command failed, then — via the deferred
`saveTask` — logs the task; the child's error is returned.  Yields the final
task value, the store trace and the returned error. -/
def processTask (marshal : MinionTask → String) (logDir : String)
    (cmd : CmdResult) (now : Int) (t : MinionTask) :
    MinionTask × List MinionEvent × Option String :=
  let t1 := { t with TimeProcessed := now, Result := cmd.output }
  let t2 :=
    match cmd.err with
    | some e => { t1 with Error := e }
    | none => t1
  (t2, saveTask marshal logDir t2, cmd.err)

/-- Modelled from the spec: the classifier value `{Key, Description, Value}`
built by `NewSimpleClassifier` (declared outside the available sources). -/
structure SimpleClassifier where
  Key : String
  Description : String
  Value : String
deriving Repr, DecidableEq

/-- Modelled from the spec: the `MinionClassifier` capability set (declared
outside the available sources) — each getter yields a value and an error. -/
structure MinionClassifier where
  GetKey : String × Option String
  GetDescription : String × Option String
  GetValue : String × Option String
deriving Repr, DecidableEq

/-- `SetClassifier` (src/minion/etcd.go): the three getters are called in
sequence with each call's error bound to the same `err` variable — so each
binding shadows the previous one, exactly as in the source — and only the
surviving error (the one from `GetValue`) is checked; on success the
classifier is serialized (`json.Marshal` abstracted as `marshalC`) and
written under the classifier directory keyed by `key`. -/
def SetClassifier (marshalC : SimpleClassifier → String)
    (classifierDir : String) (c : MinionClassifier) :
    List MinionEvent × Option String :=
  let key := c.GetKey.fst
  let err := c.GetKey.snd
  let description := c.GetDescription.fst
  let err := c.GetDescription.snd
  let value := c.GetValue.fst
  let err := c.GetValue.snd
  match err with
  | some e => ([], some e)
  | none =>
    let klassifier : SimpleClassifier :=
      { Key := key, Description := description, Value := value }
    ([MinionEvent.set (classifierDir ++ "/" ++ key) (marshalC klassifier)], none)

/-! ### Concrete scenarios used by the theorems below -/

/-- A package resource that is absent but should be present. -/
def c1res : Resource :=
  { ResourceID := "package[foo]", WantBefore := [], WantAfter := [],
    Evaluate := .ok { Want := "present", Current := "absent", Update := false },
    Create := none, Delete := none, Update := none }

/-- A one-resource catalog with `DryRun = true`. -/
def c1cat : Catalog :=
  { Modules := [], Resources := [c1res],
    Config := { Main := "main", DryRun := true } }

/-- Main module importing module `a`. -/
def c2main : Module :=
  { Name := "main", Resources := [],
    Imports := [{ Name := "a", Path := "a.hcl" }], UnknownKeys := [] }

/-- Module `a`, importing a module `x` that is not in the module path. -/
def c2a : Module :=
  { Name := "a", Resources := [],
    Imports := [{ Name := "x", Path := "x.hcl" }], UnknownKeys := [] }

/-- Module path holding `main` and `a` but not `x`. -/
def c2mods : List (String × Module) := [("main", c2main), ("a", c2a)]

/-- Catalog configuration rooted at `main`. -/
def c2cfg : Config := { Main := "main", DryRun := false }

/-- The `package[nginx]` resource, declared twice across modules below. -/
def nginx1 : Resource :=
  { ResourceID := "package[nginx]", WantBefore := [], WantAfter := [],
    Evaluate := .ok { Want := "present", Current := "present", Update := false },
    Create := none, Delete := none, Update := none }

/-- Main module importing `m1` and `m2`. -/
def c3main : Module :=
  { Name := "main", Resources := [],
    Imports := [{ Name := "m1", Path := "m1.hcl" }, { Name := "m2", Path := "m2.hcl" }],
    UnknownKeys := [] }

/-- Module `m1`, declaring `package[nginx]`. -/
def c3m1 : Module :=
  { Name := "m1", Resources := [nginx1], Imports := [], UnknownKeys := [] }

/-- Module `m2`, also declaring `package[nginx]`. -/
def c3m2 : Module :=
  { Name := "m2", Resources := [nginx1], Imports := [], UnknownKeys := [] }

/-- Module path holding `main`, `m1` and `m2`. -/
def c3mods : List (String × Module) := [("main", c3main), ("m1", c3m1), ("m2", c3m2)]

/-- Catalog configuration rooted at `main`. -/
def c3cfg : Config := { Main := "main", DryRun := false }

/-- A resource whose evaluation yields the pair `(present, unknown)` — which
matches no row of the transition table — with the out-of-date flag set. -/
def c4res : Resource :=
  { ResourceID := "package[foo]", WantBefore := [], WantAfter := [],
    Evaluate := .ok { Want := "present", Current := "unknown", Update := true },
    Create := none, Delete := none, Update := none }

/-- A one-resource catalog around `c4res`, with `DryRun = false`. -/
def c4cat : Catalog :=
  { Modules := [], Resources := [c4res],
    Config := { Main := "main", DryRun := false } }

/-- A resource whose evaluation yields a `Want` outside the four known
life-states; the only shape that reaches the report-and-skip branch. -/
def c4unknown : Resource :=
  { ResourceID := "service[x]", WantBefore := [], WantAfter := [],
    Evaluate := .ok { Want := "unknown", Current := "present", Update := false },
    Create := none, Delete := none, Update := none }

/-- Resource `A`, wanting to run after `B`. -/
def r5A : Resource :=
  { ResourceID := "A", WantBefore := [], WantAfter := ["B"],
    Evaluate := .ok { Want := "present", Current := "present", Update := false },
    Create := none, Delete := none, Update := none }

/-- Resource `B`, with no ordering declarations. -/
def r5B : Resource :=
  { ResourceID := "B", WantBefore := [], WantAfter := [],
    Evaluate := .ok { Want := "present", Current := "present", Update := false },
    Create := none, Delete := none, Update := none }

/-- Resource `A`, wanting to run after a `Z` that is nowhere in the map. -/
def r5Z : Resource :=
  { ResourceID := "A", WantBefore := [], WantAfter := ["Z"],
    Evaluate := .ok { Want := "present", Current := "present", Update := false },
    Create := none, Delete := none, Update := none }

/-- Collection with both ordering targets present. -/
def res5 : List (String × Resource) := [("A", r5A), ("B", r5B)]

/-- Collection whose only resource wants a missing target. -/
def res5bad : List (String × Resource) := [("A", r5Z)]

/-- A resource whose evaluation fails. -/
def c6err : Resource :=
  { ResourceID := "service[db]", WantBefore := [], WantAfter := [],
    Evaluate := .error "evaluation exploded",
    Create := none, Delete := none, Update := none }

/-- An absent-but-wanted resource whose `Create` fails. -/
def c6createfail : Resource :=
  { ResourceID := "package[bar]", WantBefore := [], WantAfter := [],
    Evaluate := .ok { Want := "present", Current := "absent", Update := false },
    Create := some "create failed", Delete := none, Update := none }

/-- A present-but-unwanted resource whose `Delete` fails. -/
def c6deletefail : Resource :=
  { ResourceID := "package[baz]", WantBefore := [], WantAfter := [],
    Evaluate := .ok { Want := "absent", Current := "present", Update := false },
    Create := none, Delete := some "delete failed", Update := none }

/-- An in-state but out-of-date resource whose `Update` fails. -/
def c6updatefail : Resource :=
  { ResourceID := "file[conf]", WantBefore := [], WantAfter := [],
    Evaluate := .ok { Want := "present", Current := "present", Update := true },
    Create := none, Delete := none, Update := some "update failed" }

/-- A concrete minion task. -/
def demoTask : MinionTask :=
  { TaskID := "t1", Command := "uname", Args := [], IsConcurrent := false,
    TimeReceived := 0, TimeProcessed := 0, Result := "", Error := "" }

/-- A concrete deserializer: the value "T1" decodes to `demoTask`, every
other value is invalid. -/
def demoDecode : String → Except String MinionTask :=
  fun s => if s = "T1" then .ok demoTask else .error "invalid task"

/-- A task arriving with a non-empty `Error` field. -/
def staleTask : MinionTask :=
  { TaskID := "t1", Command := "uname", Args := [], IsConcurrent := false,
    TimeReceived := 0, TimeProcessed := 0, Result := "", Error := "stale failure" }

/-- A concrete task serializer. -/
def demoMarshal : MinionTask → String :=
  fun t => t.TaskID ++ ":" ++ t.Result ++ ":" ++ t.Error

/-- A concrete classifier serializer. -/
def demoClassifierMarshal : SimpleClassifier → String :=
  fun k => k.Key ++ "=" ++ k.Value

/-- A classifier whose key and description getters fail but whose value
getter succeeds. -/
def c10demo : MinionClassifier :=
  { GetKey := ("os", some "key lookup failed"),
    GetDescription := ("Operating system", some "description lookup failed"),
    GetValue := ("linux", none) }

/-! ### Helper lemmas -/

/-- Under DryRun a resource contributes no actuation event: evaluation either
fails (one log line) or the iteration is cut short before the switch. -/
theorem runResource_dryRun_no_action (r : Resource) :
    (runResource true r).filter Event.isAction = [] := by
  unfold runResource
  cases h : r.Evaluate with
  | error e => simp [Event.isAction]
  | ok s => simp

/-- Flattening preserves an everywhere-empty filter. -/
theorem filter_flatten_eq_nil {α : Type} (p : α → Bool) (ls : List (List α))
    (h : ∀ l ∈ ls, l.filter p = []) : ls.flatten.filter p = [] := by
  induction ls with
  | nil => simp
  | cons l ls ih =>
    simp only [List.flatten_cons, List.filter_append]
    rw [h l (by simp), ih (fun l2 hl2 => h l2 (by simp [hl2]))]
    rfl

/-- The backlog drain publishes exactly the successfully deserialized
entries, in list order. -/
theorem published_drainBacklog (decode : String → Except String MinionTask)
    (nodes : List EtcdNode) :
    published (drainBacklog decode nodes) =
      nodes.filterMap (fun n => (decode n.Value).toOption) := by
  induction nodes with
  | nil => rfl
  | cons n rest ih =>
    simp only [drainBacklog, List.filterMap_cons]
    cases h : decode n.Value with
    | error e => simpa [published, Except.toOption] using ih
    | ok t => simpa [published, Except.toOption] using ih

/-- The backlog drain deletes exactly the listed keys, in list order. -/
theorem deletions_drainBacklog (decode : String → Except String MinionTask)
    (nodes : List EtcdNode) :
    deletions (drainBacklog decode nodes) = nodes.map EtcdNode.Key := by
  induction nodes with
  | nil => rfl
  | cons n rest ih =>
    simp only [drainBacklog, List.map_cons]
    cases h : decode n.Value with
    | error e => simpa [deletions] using ih
    | ok t => simpa [deletions] using ih

/-- The backlog drain is the concatenation of per-entry segments, each first
deleting the entry's key and then publishing its task if it deserialized. -/
theorem drainBacklog_eq_flatten (decode : String → Except String MinionTask)
    (nodes : List EtcdNode) :
    drainBacklog decode nodes =
      (nodes.map (fun n =>
        MinionEvent.deleteKey n.Key ::
          (match decode n.Value with
           | .error _ => []
           | .ok t => [MinionEvent.publish t]))).flatten := by
  induction nodes with
  | nil => rfl
  | cons n rest ih =>
    simp only [drainBacklog, List.map_cons, List.flatten_cons]
    cases h : decode n.Value with
    | error e => simpa using ih
    | ok t => simpa using ih

/-- A key is found in an association list only among its keys. -/
theorem alookup_isSome_mem {α : Type} :
    ∀ (l : List (String × α)) (k : String),
      (alookup l k).isSome = true → k ∈ l.map Prod.fst := by
  intro l
  induction l with
  | nil => intro k h; simp [alookup] at h
  | cons p rest ih =>
    intro k h
    by_cases hk : p.fst = k
    · simp [← hk]
    · have hrest := ih k (by
        obtain ⟨k2, v⟩ := p
        simpa [alookup, hk] using h)
      simp [hrest]

/-- Membership in the nodes of `addNode`. -/
theorem addNode_mem_nodes (g : Graph) (n x : String) :
    x ∈ (g.addNode n).nodes ↔ x ∈ g.nodes ∨ x = n := by
  unfold Graph.addNode
  by_cases h : n ∈ g.nodes
  · rw [if_pos h]
    constructor
    · exact Or.inl
    · rintro (hx | rfl)
      · exact hx
      · exact h
  · rw [if_neg h]
    simp

/-- `addNode` leaves the edges unchanged. -/
theorem addNode_edges (g : Graph) (n : String) :
    (g.addNode n).edges = g.edges := by
  unfold Graph.addNode
  split <;> rfl

/-- `addEdge` leaves the nodes unchanged. -/
theorem addEdge_nodes (g : Graph) (a b : String) :
    (g.addEdge a b).nodes = g.nodes := by
  unfold Graph.addEdge
  repeat' split
  all_goals rfl

/-- Membership in the edges of `addEdge` when both endpoints are nodes. -/
theorem addEdge_mem_edges (g : Graph) (a b : String)
    (ha : a ∈ g.nodes) (hb : b ∈ g.nodes) (e : String × String) :
    e ∈ (g.addEdge a b).edges ↔ e ∈ g.edges ∨ e = (a, b) := by
  unfold Graph.addEdge
  rw [if_pos ⟨ha, hb⟩]
  by_cases h : (a, b) ∈ g.edges
  · rw [if_pos h]
    constructor
    · exact Or.inl
    · rintro (he | rfl)
      · exact he
      · exact h
  · rw [if_neg h]
    simp

/-- Nodes of the initial fold that seeds the resource graph. -/
theorem foldl_addNode_mem (rs : List (String × Resource)) :
    ∀ (g : Graph) (x : String),
      x ∈ (rs.foldl (fun g p => g.addNode p.fst) g).nodes ↔
        x ∈ g.nodes ∨ x ∈ rs.map Prod.fst := by
  induction rs with
  | nil => intro g x; simp
  | cons p rest ih =>
    intro g x
    rw [List.foldl_cons, ih, addNode_mem_nodes]
    simp [List.mem_cons]
    tauto

/-- The initial fold adds no edges. -/
theorem foldl_addNode_edges (rs : List (String × Resource)) :
    ∀ (g : Graph),
      (rs.foldl (fun g p => g.addNode p.fst) g).edges = g.edges := by
  induction rs with
  | nil => intro g; rfl
  | cons p rest ih =>
    intro g
    rw [List.foldl_cons, ih, addNode_edges]

/-- `addAfterEdges` with every target present: no error, nodes unchanged,
and the edges grow by exactly `name → d` for the listed targets. -/
theorem addAfterEdges_ok (resources : List (String × Resource)) (name : String) :
    ∀ (deps : List String) (g : Graph),
      name ∈ g.nodes →
      (∀ x, x ∈ resources.map Prod.fst → x ∈ g.nodes) →
      (∀ d ∈ deps, (alookup resources d).isSome = true) →
      (addAfterEdges resources name g deps).snd = none ∧
      (addAfterEdges resources name g deps).fst.nodes = g.nodes ∧
      (∀ e, e ∈ (addAfterEdges resources name g deps).fst.edges ↔
        e ∈ g.edges ∨ ∃ d ∈ deps, e = (name, d)) := by
  intro deps
  induction deps with
  | nil =>
    intro g hname hkeys hdeps
    refine ⟨rfl, rfl, ?_⟩
    intro e
    simp [addAfterEdges]
  | cons d rest ih =>
    intro g hname hkeys hdeps
    have hd : (alookup resources d).isSome = true := hdeps d (by simp)
    have hdg : d ∈ g.nodes := hkeys d (alookup_isSome_mem resources d hd)
    have hstep : addAfterEdges resources name g (d :: rest) =
        addAfterEdges resources name (g.addEdge name d) rest := by
      simp [addAfterEdges, hd]
    have hname2 : name ∈ (g.addEdge name d).nodes := by
      rw [addEdge_nodes]; exact hname
    have hkeys2 : ∀ x, x ∈ resources.map Prod.fst → x ∈ (g.addEdge name d).nodes := by
      intro x hx; rw [addEdge_nodes]; exact hkeys x hx
    obtain ⟨h1, h2, h3⟩ := ih (g.addEdge name d) hname2 hkeys2
      (fun d2 hd2 => hdeps d2 (by simp [hd2]))
    rw [hstep]
    refine ⟨h1, ?_, ?_⟩
    · rw [h2, addEdge_nodes]
    · intro e
      rw [h3 e, addEdge_mem_edges g name d hname hdg]
      simp only [List.mem_cons, exists_eq_or_imp]
      tauto

/-- `addBeforeEdges` with every target present: no error, nodes unchanged,
and the edges grow by exactly `d → name` for the listed targets. -/
theorem addBeforeEdges_ok (resources : List (String × Resource)) (name : String) :
    ∀ (deps : List String) (g : Graph),
      name ∈ g.nodes →
      (∀ x, x ∈ resources.map Prod.fst → x ∈ g.nodes) →
      (∀ d ∈ deps, (alookup resources d).isSome = true) →
      (addBeforeEdges resources name g deps).snd = none ∧
      (addBeforeEdges resources name g deps).fst.nodes = g.nodes ∧
      (∀ e, e ∈ (addBeforeEdges resources name g deps).fst.edges ↔
        e ∈ g.edges ∨ ∃ d ∈ deps, e = (d, name)) := by
  intro deps
  induction deps with
  | nil =>
    intro g hname hkeys hdeps
    refine ⟨rfl, rfl, ?_⟩
    intro e
    simp [addBeforeEdges]
  | cons d rest ih =>
    intro g hname hkeys hdeps
    have hd : (alookup resources d).isSome = true := hdeps d (by simp)
    have hdg : d ∈ g.nodes := hkeys d (alookup_isSome_mem resources d hd)
    have hstep : addBeforeEdges resources name g (d :: rest) =
        addBeforeEdges resources name (g.addEdge d name) rest := by
      simp [addBeforeEdges, hd]
    have hname2 : name ∈ (g.addEdge d name).nodes := by
      rw [addEdge_nodes]; exact hname
    have hkeys2 : ∀ x, x ∈ resources.map Prod.fst → x ∈ (g.addEdge d name).nodes := by
      intro x hx; rw [addEdge_nodes]; exact hkeys x hx
    obtain ⟨h1, h2, h3⟩ := ih (g.addEdge d name) hname2 hkeys2
      (fun d2 hd2 => hdeps d2 (by simp [hd2]))
    rw [hstep]
    refine ⟨h1, ?_, ?_⟩
    · rw [h2, addEdge_nodes]
    · intro e
      rw [h3 e, addEdge_mem_edges g d name hdg hname]
      simp only [List.mem_cons, exists_eq_or_imp]
      tauto

/-- `addAfterEdges` either succeeds — in which case every listed target was
present — or stops at a missing target with the corresponding error. -/
theorem addAfterEdges_cases (resources : List (String × Resource)) (name : String) :
    ∀ (deps : List String) (g : Graph),
      ((addAfterEdges resources name g deps).snd = none ∧
        ∀ d ∈ deps, (alookup resources d).isSome = true) ∨
      (∃ d ∈ deps, alookup resources d = none ∧
        (addAfterEdges resources name g deps).snd = some (errMissing name d)) := by
  intro deps
  induction deps with
  | nil =>
    intro g
    left
    exact ⟨rfl, by simp⟩
  | cons d rest ih =>
    intro g
    by_cases hd : (alookup resources d).isSome = true
    · have hstep : addAfterEdges resources name g (d :: rest) =
          addAfterEdges resources name (g.addEdge name d) rest := by
        simp [addAfterEdges, hd]
      rcases ih (g.addEdge name d) with ⟨h1, h2⟩ | ⟨d2, hd2, hn, he⟩
      · left
        rw [hstep]
        refine ⟨h1, ?_⟩
        intro d2 hd2
        rcases List.mem_cons.mp hd2 with h | h
        · rw [h]; exact hd
        · exact h2 d2 h
      · right
        exact ⟨d2, by simp [hd2], hn, by rw [hstep]; exact he⟩
    · right
      have hnone : alookup resources d = none := by
        cases h : alookup resources d
        · rfl
        · rw [h] at hd; simp at hd
      refine ⟨d, by simp, hnone, ?_⟩
      simp [addAfterEdges, hnone]

/-- `addBeforeEdges` either succeeds — in which case every listed target was
present — or stops at a missing target with the corresponding error. -/
theorem addBeforeEdges_cases (resources : List (String × Resource)) (name : String) :
    ∀ (deps : List String) (g : Graph),
      ((addBeforeEdges resources name g deps).snd = none ∧
        ∀ d ∈ deps, (alookup resources d).isSome = true) ∨
      (∃ d ∈ deps, alookup resources d = none ∧
        (addBeforeEdges resources name g deps).snd = some (errMissing name d)) := by
  intro deps
  induction deps with
  | nil =>
    intro g
    left
    exact ⟨rfl, by simp⟩
  | cons d rest ih =>
    intro g
    by_cases hd : (alookup resources d).isSome = true
    · have hstep : addBeforeEdges resources name g (d :: rest) =
          addBeforeEdges resources name (g.addEdge d name) rest := by
        simp [addBeforeEdges, hd]
      rcases ih (g.addEdge d name) with ⟨h1, h2⟩ | ⟨d2, hd2, hn, he⟩
      · left
        rw [hstep]
        refine ⟨h1, ?_⟩
        intro d2 hd2
        rcases List.mem_cons.mp hd2 with h | h
        · rw [h]; exact hd
        · exact h2 d2 h
      · right
        exact ⟨d2, by simp [hd2], hn, by rw [hstep]; exact he⟩
    · right
      have hnone : alookup resources d = none := by
        cases h : alookup resources d
        · rfl
        · rw [h] at hd; simp at hd
      refine ⟨d, by simp, hnone, ?_⟩
      simp [addBeforeEdges, hnone]

/-- Unfolding `EdgeSpec` over a cons cell. -/
theorem EdgeSpec_cons (name : String) (r : Resource)
    (rest : List (String × Resource)) (a b : String) :
    EdgeSpec ((name, r) :: rest) a b ↔
      ((a = name ∧ b ∈ r.WantAfter) ∨ (b = name ∧ a ∈ r.WantBefore) ∨
        EdgeSpec rest a b) := by
  unfold EdgeSpec
  simp only [List.mem_cons, Prod.mk.injEq]
  constructor
  · rintro (⟨r2, ⟨ha, hr⟩ | hmem, hw⟩ | ⟨r2, ⟨hb, hr⟩ | hmem, hw⟩)
    · exact Or.inl ⟨ha, hr ▸ hw⟩
    · exact Or.inr (Or.inr (Or.inl ⟨r2, hmem, hw⟩))
    · exact Or.inr (Or.inl ⟨hb, hr ▸ hw⟩)
    · exact Or.inr (Or.inr (Or.inr ⟨r2, hmem, hw⟩))
  · rintro (⟨ha, hw⟩ | ⟨hb, hw⟩ | ⟨r2, hmem, hw⟩ | ⟨r2, hmem, hw⟩)
    · exact Or.inl ⟨r, Or.inl ⟨ha, rfl⟩, hw⟩
    · exact Or.inr ⟨r, Or.inl ⟨hb, rfl⟩, hw⟩
    · exact Or.inl ⟨r2, Or.inr hmem, hw⟩
    · exact Or.inr ⟨r2, Or.inr hmem, hw⟩

/-- `connectResources` on a sub-collection with every target present: no
error, nodes unchanged, edges characterized by `EdgeSpec`. -/
theorem connectResources_ok (resources : List (String × Resource))
    (hAll : allDepsPresent resources) :
    ∀ (l : List (String × Resource)) (g : Graph),
      (∀ p ∈ l, p ∈ resources) →
      (∀ x, x ∈ resources.map Prod.fst → x ∈ g.nodes) →
      (connectResources resources l g).snd = none ∧
      (connectResources resources l g).fst.nodes = g.nodes ∧
      (∀ a b, (a, b) ∈ (connectResources resources l g).fst.edges ↔
        (a, b) ∈ g.edges ∨ EdgeSpec l a b) := by
  intro l
  induction l with
  | nil =>
    intro g hsub hkeys
    refine ⟨rfl, rfl, ?_⟩
    intro a b
    simp [connectResources, EdgeSpec]
  | cons p rest ih =>
    intro g hsub hkeys
    obtain ⟨name, r⟩ := p
    have hmem : (name, r) ∈ resources := hsub _ (by simp)
    have hname : name ∈ g.nodes :=
      hkeys name (List.mem_map.mpr ⟨(name, r), hmem, rfl⟩)
    have hdepsA : ∀ d ∈ r.WantAfter, (alookup resources d).isSome = true :=
      (hAll _ hmem).1
    have hdepsB : ∀ d ∈ r.WantBefore, (alookup resources d).isSome = true :=
      (hAll _ hmem).2
    obtain ⟨ha1, ha2, ha3⟩ :=
      addAfterEdges_ok resources name r.WantAfter g hname hkeys hdepsA
    rcases hA : addAfterEdges resources name g r.WantAfter with ⟨g2, eA⟩
    rw [hA] at ha1 ha2 ha3
    have heA : eA = none := ha1
    subst heA
    have hname2 : name ∈ g2.nodes := by rw [ha2]; exact hname
    have hkeys2 : ∀ x, x ∈ resources.map Prod.fst → x ∈ g2.nodes := by
      intro x hx; rw [ha2]; exact hkeys x hx
    obtain ⟨hb1, hb2, hb3⟩ :=
      addBeforeEdges_ok resources name r.WantBefore g2 hname2 hkeys2 hdepsB
    rcases hB : addBeforeEdges resources name g2 r.WantBefore with ⟨g3, eB⟩
    rw [hB] at hb1 hb2 hb3
    have heB : eB = none := hb1
    subst heB
    have hstep : connectResources resources ((name, r) :: rest) g =
        connectResources resources rest g3 := by
      simp [connectResources, hA, hB]
    have hkeys3 : ∀ x, x ∈ resources.map Prod.fst → x ∈ g3.nodes := by
      intro x hx; rw [hb2]; exact hkeys2 x hx
    obtain ⟨hc1, hc2, hc3⟩ := ih g3 (fun p hp => hsub p (by simp [hp])) hkeys3
    rw [hstep]
    refine ⟨hc1, ?_, ?_⟩
    · rw [hc2, hb2, ha2]
    · intro a b
      rw [hc3 a b, EdgeSpec_cons]
      have hbm := hb3 (a, b)
      have ham := ha3 (a, b)
      simp only [Prod.mk.injEq] at hbm ham
      rw [hbm, ham]
      constructor
      · rintro (((h | ⟨d, hd, rfl, rfl⟩) | ⟨d, hd, rfl, rfl⟩) | h)
        · exact Or.inl h
        · exact Or.inr (Or.inl ⟨rfl, hd⟩)
        · exact Or.inr (Or.inr (Or.inl ⟨rfl, hd⟩))
        · exact Or.inr (Or.inr (Or.inr h))
      · rintro (h | ⟨rfl, hb4⟩ | ⟨rfl, ha4⟩ | h)
        · exact Or.inl (Or.inl (Or.inl h))
        · exact Or.inl (Or.inl (Or.inr ⟨b, hb4, rfl, rfl⟩))
        · exact Or.inl (Or.inr ⟨a, ha4, rfl, rfl⟩)
        · exact Or.inr h

/-- `connectResources` on a sub-collection holding a resource with a missing
target: the result is the missing-target error for some wanting resource of
the sub-collection and some missing target of its lists. -/
theorem connectResources_error (resources : List (String × Resource)) :
    ∀ (l : List (String × Resource)) (g : Graph),
      (∃ p ∈ l, ∃ d, (d ∈ p.snd.WantAfter ∨ d ∈ p.snd.WantBefore) ∧
        alookup resources d = none) →
      ∃ name dep r2,
        (connectResources resources l g).snd = some (errMissing name dep) ∧
        alookup resources dep = none ∧ (name, r2) ∈ l ∧
        (dep ∈ r2.WantAfter ∨ dep ∈ r2.WantBefore) := by
  intro l
  induction l with
  | nil =>
    intro g h
    rcases h with ⟨p, hp, _⟩
    simp at hp
  | cons p rest ih =>
    intro g hex
    obtain ⟨name, r⟩ := p
    rcases addAfterEdges_cases resources name r.WantAfter g with
      ⟨hA1, hA2⟩ | ⟨d, hd, hnone, herr⟩
    · -- every after-target present; look at the before-targets
      rcases hA : addAfterEdges resources name g r.WantAfter with ⟨g2, eA⟩
      rw [hA] at hA1
      have heA : eA = none := hA1
      subst heA
      rcases addBeforeEdges_cases resources name r.WantBefore g2 with
        ⟨hB1, hB2⟩ | ⟨d, hd, hnone, herr⟩
      · -- both lists fully present for this resource: the witness is in rest
        rcases hB : addBeforeEdges resources name g2 r.WantBefore with ⟨g3, eB⟩
        rw [hB] at hB1
        have heB : eB = none := hB1
        subst heB
        have hstep : connectResources resources ((name, r) :: rest) g =
            connectResources resources rest g3 := by
          simp [connectResources, hA, hB]
        have hex2 : ∃ p ∈ rest, ∃ d, (d ∈ p.snd.WantAfter ∨ d ∈ p.snd.WantBefore) ∧
            alookup resources d = none := by
          rcases hex with ⟨p2, hp2, d2, hd2, hnone2⟩
          rcases List.mem_cons.mp hp2 with h | h
          · exfalso
            rcases hd2 with hd2 | hd2
            · have := hA2 d2 (by rw [h] at hd2; exact hd2)
              rw [hnone2] at this
              simp at this
            · have := hB2 d2 (by rw [h] at hd2; exact hd2)
              rw [hnone2] at this
              simp at this
          · exact ⟨p2, h, d2, hd2, hnone2⟩
        obtain ⟨name2, dep2, r2, hr1, hr2, hr3, hr4⟩ := ih g3 hex2
        exact ⟨name2, dep2, r2, by rw [hstep]; exact hr1, hr2, by simp [hr3], hr4⟩
      · -- a before-target is missing: the run stops with its error
        rcases hB : addBeforeEdges resources name g2 r.WantBefore with ⟨g3, eB⟩
        rw [hB] at herr
        have heB : eB = some (errMissing name d) := herr
        subst heB
        refine ⟨name, d, r, ?_, hnone, by simp, Or.inr hd⟩
        simp [connectResources, hA, hB]
    · -- an after-target is missing: the run stops with its error
      rcases hA : addAfterEdges resources name g r.WantAfter with ⟨g2, eA⟩
      rw [hA] at herr
      have heA : eA = some (errMissing name d) := herr
      subst heA
      refine ⟨name, d, r, ?_, hnone, by simp, Or.inl hd⟩
      simp [connectResources, hA]

end Gru

namespace Gru

/-! ### Claims -/

/-- C1: with `DryRun = true` no `Create`, `Delete` or `Update` event ever
appears in a catalog run — but on the catalog holding one resource that is
absent and should be present, the run writes only the header line: the
"is absent, should be present" report promised by the claim (and by the
`DryRun` field's own comment, "just report what would be done") is NOT
written, because the DryRun test short-circuits the loop before the report. -/
theorem dryRun_no_actuation_and_no_report :
    (∀ c : Catalog, c.Config.DryRun = true →
      ((Catalog.Run c).fst.filter Event.isAction) = []) ∧
    Catalog.Run c1cat = ([Event.write "Loaded 1 resources from 0 modules"], none) := by
  constructor
  · intro c h
    show ((runHeader c :: (c.Resources.map (runResource c.Config.DryRun)).flatten).filter
      Event.isAction) = []
    rw [h]
    simp only [List.filter_cons]
    have hhead : Event.isAction (runHeader c) = false := rfl
    rw [hhead]
    simp only [Bool.false_eq_true, if_false]
    exact filter_flatten_eq_nil _ _ (by
      intro l hl
      rcases List.mem_map.mp hl with ⟨r, hr, hrl⟩
      rw [← hrl]
      exact runResource_dryRun_no_action r)
  · rfl

/-- C1 witness: the DryRun catalog `c1cat` satisfies the hypothesis and the
general conjunct applies to it. -/
theorem dryRun_no_actuation_and_no_report_witness :
    c1cat.Config.DryRun = true ∧
    ((Catalog.Run c1cat).fst.filter Event.isAction) = [] :=
  ⟨rfl, dryRun_no_actuation_and_no_report.1 c1cat rfl⟩

/-- C2: module `a` imports module `x` which is not in the module path, yet
because `buildImportGraphFunc` discards the error of its recursive call,
`ImportGraph` rooted at `main` (which imports `a`) returns no error and
catalog `Load` succeeds — the claim's required failure does not happen for
modules reached transitively. -/
theorem importGraph_drops_transitive_missing_error :
    alookup c2mods "x" = none ∧
    c2a.Imports = [{ Name := "x", Path := "x.hcl" }] ∧
    (ImportGraph "main" c2mods).snd = none ∧
    (Load c2cfg c2mods).snd = none := by
  refine ⟨rfl, rfl, rfl, rfl⟩

/-- C3 counterexample: on modules `m1` and `m2` both declaring
`package[nginx]`, `Load` does fail naming the id and both modules — but the
returned Catalog is not empty of modules: its `Modules` field already holds
the three sorted modules, refuting the claim's "contains no modules". -/
theorem load_duplicate_partial_catalog_cex :
    (Load c3cfg c3mods).snd =
      some "Duplicate resource package[nginx] in m2, previous declaration was in m1" ∧
    (Load c3cfg c3mods).fst.Modules ≠ [] ∧
    (Load c3cfg c3mods).fst.Modules = [c3m1, c3m2, c3main] := by
  refine ⟨rfl, by decide, rfl⟩

/-- C3 (amended): duplicate `ResourceID` across modules makes `Load` fail
with an error naming the id and both declaring modules, and the returned
Catalog holds no resources — its `Modules` field, however, already holds the
sorted modules.  Stated as: (1) whenever `Load` returns an error the
returned catalog has an empty `Resources` list; (2) when module sorting
succeeded and the resource collection fails, `Load` returns the collection
error together with the sorted modules and no resources; (3) two modules
declaring the same id make the collection fail with the message naming the
id and both modules. -/
theorem load_duplicate_no_resources :
    (∀ (config : Config) (modules : List (String × Module)),
      (Load config modules).fst.Resources = [] ∨ (Load config modules).snd = none) ∧
    (∀ (config : Config) (modules : List (String × Module)) (g : Graph)
      (sorted : List String) (rm : List (String × Resource)) (e : String),
      ImportGraph config.Main modules = (g, none) →
      Graph.Sort g = .ok sorted →
      ResourceCollection (sorted.map (fun n => (alookup modules n).getD (defaultModule n))) =
        (rm, some e) →
      Load config modules =
        ({ Modules := sorted.map (fun n => (alookup modules n).getD (defaultModule n)),
           Resources := [], Config := config }, some e)) ∧
    (∀ (m1 m2 : Module) (r1 r2 : Resource),
      m1.Resources = [r1] → m2.Resources = [r2] →
      r1.ResourceID = r2.ResourceID →
      (ResourceCollection [m1, m2]).snd =
        some ("Duplicate resource " ++ r2.ResourceID ++ " in " ++ m2.Name ++
          ", previous declaration was in " ++ m1.Name)) := by
  refine ⟨?ppart1, ?ppart2, ?ppart3⟩
  case ppart1 =>
    intro config modules
    unfold Load
    dsimp only
    repeat' split
    all_goals simp
  case ppart2 =>
    intro config modules g sorted rm e h1 h2 h3
    unfold Load
    rw [h1]
    simp only [h2, h3]
  case ppart3 =>
    intro m1 m2 r1 r2 h1 h2 h3
    simp [ResourceCollection, resourceCollectionAux, collectResources, alookup, h1, h2, h3]

/-- C3 witness: the amended theorem applied to the nginx scenario. -/
theorem load_duplicate_no_resources_witness :
    ((Load c3cfg c3mods).fst.Resources = [] ∨ (Load c3cfg c3mods).snd = none) ∧
    (ResourceCollection [c3m1, c3m2]).snd =
      some ("Duplicate resource " ++ nginx1.ResourceID ++ " in " ++ c3m2.Name ++
        ", previous declaration was in " ++ c3m1.Name) ∧
    Load c3cfg c3mods =
      ({ Modules := [c3m1, c3m2, c3main], Resources := [], Config := c3cfg },
        some "Duplicate resource package[nginx] in m2, previous declaration was in m1") := by
  refine ⟨?w1, ?w2, ?w3⟩
  case w1 => exact load_duplicate_no_resources.1 c3cfg c3mods
  case w2 => exact load_duplicate_no_resources.2.2 c3m1 c3m2 nginx1 nginx1 rfl rfl rfl
  case w3 =>
    have h := load_duplicate_no_resources.2.1 c3cfg c3mods
      { nodes := ["main", "m1", "m2"], edges := [("main", "m1"), ("main", "m2")] }
      ["m1", "m2", "main"]
      [("package[nginx]", nginx1)]
      "Duplicate resource package[nginx] in m2, previous declaration was in m1"
      rfl rfl rfl
    exact h.trans (by decide)

/-- C4 counterexample: the pair `(Want = present, Current = unknown)` matches
no action row of the transition table, yet with `State.Update = true` the
non-DryRun run does NOT write the "unknown state(s)" report, does not skip
the resource, and calls `Update` on it. -/
theorem unmatched_pair_updates_cex :
    runResource false c4res =
      [Event.write "package[foo] resource is out of date, will be updated",
        Event.update "package[foo]"] ∧
    Event.update "package[foo]" ∈ (Catalog.Run c4cat).fst ∧
    Event.write "package[foo] unknown state(s): want present, current unknown" ∉
      (Catalog.Run c4cat).fst := by
  refine ⟨rfl, by decide, by decide⟩

/-- C4 (amended): the report-and-skip branch is taken exactly when `Want`
differs from `Current` AND `Want` is none of the four known life-states; a
pair that matches no action row but whose `Want` is a known state (for
example `Want = present`, `Current = unknown`) silently takes no life-state
action and still calls `Update` whenever `State.Update` is true. -/
theorem unmatched_pair_behavior :
    (∀ (r : Resource) (s : State), r.Evaluate = .ok s →
      s.Want ≠ s.Current →
      s.Want ≠ StatePresent → s.Want ≠ StateRunning →
      s.Want ≠ StateAbsent → s.Want ≠ StateStopped →
      runResource false r =
        [Event.write (r.ResourceID ++ " unknown state(s): want " ++ s.Want ++
          ", current " ++ s.Current)]) ∧
    (∀ (r : Resource) (s : State), r.Evaluate = .ok s →
      s.Want ≠ s.Current →
      (s.Want = StatePresent ∨ s.Want = StateRunning) →
      s.Current ≠ StateAbsent → s.Current ≠ StateStopped →
      runResource false r = afterSwitch r.ResourceID s r [] none) ∧
    (∀ (r : Resource) (s : State), r.Evaluate = .ok s →
      s.Want ≠ s.Current →
      (s.Want = StateAbsent ∨ s.Want = StateStopped) →
      s.Current ≠ StatePresent → s.Current ≠ StateRunning →
      runResource false r = afterSwitch r.ResourceID s r [] none) ∧
    (∀ (id : String) (s : State) (r : Resource), s.Update = true → r.Update = none →
      afterSwitch id s r [] none =
        [Event.write (id ++ " resource is out of date, will be updated"),
          Event.update id]) ∧
    (∀ (id : String) (s : State) (r : Resource), s.Update = false →
      afterSwitch id s r [] none = []) := by
  refine ⟨?q1, ?q2, ?q3, ?q4, ?q5⟩
  case q1 =>
    intro r s hEval h0 h1 h2 h3 h4
    simp [runResource, hEval, h0, h1, h2, h3, h4]
  case q2 =>
    intro r s hEval h0 h3 hc1 hc2
    rcases h3 with h3 | h3 <;> rw [h3] at h0 <;>
      simp [runResource, hEval, h3, h0, hc1, hc2]
  case q3 =>
    intro r s hEval h0 h3 hc1 hc2
    rcases h3 with h3 | h3 <;> rw [h3] at h0 <;>
      simp [runResource, hEval, h3, h0, hc1, hc2,
        show StateAbsent ≠ StatePresent from by decide,
        show StateAbsent ≠ StateRunning from by decide,
        show StateStopped ≠ StatePresent from by decide,
        show StateStopped ≠ StateRunning from by decide]
  case q4 =>
    intro id s r hU hRU
    simp [afterSwitch, hU, hRU]
  case q5 =>
    intro id s r hU
    simp [afterSwitch, hU]

/-- C4 witness: the amended theorem applied to a resource with an
out-of-table `Want` and to the `(present, unknown)` resource. -/
theorem unmatched_pair_behavior_witness :
    runResource false c4unknown =
      [Event.write ("service[x]" ++ " unknown state(s): want " ++ "unknown" ++
        ", current " ++ "present")] ∧
    runResource false c4res =
      afterSwitch "package[foo]"
        { Want := "present", Current := "unknown", Update := true } c4res [] none ∧
    afterSwitch "package[foo]"
        { Want := "present", Current := "unknown", Update := true } c4res [] none =
      [Event.write ("package[foo]" ++ " resource is out of date, will be updated"),
        Event.update "package[foo]"] := by
  refine ⟨?w1, ?w2, ?w3⟩
  case w1 =>
    exact unmatched_pair_behavior.1 c4unknown
      { Want := "unknown", Current := "present", Update := false }
      rfl (by decide) (by decide) (by decide) (by decide) (by decide)
  case w2 =>
    exact unmatched_pair_behavior.2.1 c4res
      { Want := "present", Current := "unknown", Update := true }
      rfl (by decide) (Or.inl rfl) (by decide) (by decide)
  case w3 =>
    exact unmatched_pair_behavior.2.2.2.1 "package[foo]"
      { Want := "present", Current := "unknown", Update := true } c4res rfl rfl

/-- C6: a catalog run always returns a nil error; per-resource failures only
shape that resource's own trace segment.  Stated as: (1) `Run` returns no
error on every catalog; (2) the run trace is the header followed by each
resource's independent segment in list order, so no segment cuts off the
ones after it; (3) an evaluation error contributes exactly one log line and
no actuation; (4) a failing `Create` on an absent-but-wanted resource
contributes its report line, the `Create` call and the logged error, and
(when the resource is also out of date) the `Update` call still follows;
(5) symmetrically, a failing `Delete` on a present-but-unwanted resource
contributes its report line, the `Delete` call and the logged error, the
`Update` call still following when out of date; (6) a failing `Update`
contributes the out-of-date line, the `Update` call and the logged error. -/
theorem run_never_aborts :
    (∀ c : Catalog, (Catalog.Run c).snd = none) ∧
    (∀ c : Catalog, (Catalog.Run c).fst =
      runHeader c :: (c.Resources.map (runResource c.Config.DryRun)).flatten) ∧
    (∀ (dryRun : Bool) (r : Resource) (e : String), r.Evaluate = .error e →
      runResource dryRun r = [Event.write (r.ResourceID ++ " " ++ e)]) ∧
    (∀ (r : Resource) (s : State) (e : String), r.Evaluate = .ok s →
      s.Want = StatePresent → s.Current = StateAbsent → r.Create = some e →
      r.Update = none →
      runResource false r =
        [Event.write (r.ResourceID ++ " is " ++ s.Current ++ ", should be " ++ s.Want),
          Event.create r.ResourceID,
          Event.write (r.ResourceID ++ " " ++ e)] ++
        (if s.Update then
          [Event.write (r.ResourceID ++ " resource is out of date, will be updated"),
            Event.update r.ResourceID]
         else [])) ∧
    (∀ (r : Resource) (s : State) (e : String), r.Evaluate = .ok s →
      s.Want = StateAbsent → s.Current = StatePresent → r.Delete = some e →
      r.Update = none →
      runResource false r =
        [Event.write (r.ResourceID ++ " is " ++ s.Current ++ ", should be " ++ s.Want),
          Event.delete r.ResourceID,
          Event.write (r.ResourceID ++ " " ++ e)] ++
        (if s.Update then
          [Event.write (r.ResourceID ++ " resource is out of date, will be updated"),
            Event.update r.ResourceID]
         else [])) ∧
    (∀ (r : Resource) (s : State) (e : String), r.Evaluate = .ok s →
      s.Want = s.Current → s.Update = true → r.Update = some e →
      runResource false r =
        [Event.write (r.ResourceID ++ " resource is out of date, will be updated"),
          Event.update r.ResourceID,
          Event.write (r.ResourceID ++ " " ++ e)]) := by
  refine ⟨?p1, ?p2, ?p3, ?p4, ?p5, ?p6⟩
  case p1 => intro c; rfl
  case p2 => intro c; rfl
  case p3 =>
    intro dryRun r e hEval
    simp [runResource, hEval]
  case p4 =>
    intro r s e hEval hw hc hcr hru
    have hne : s.Want ≠ s.Current := by rw [hw, hc]; decide
    rw [hw] at hne
    simp [runResource, afterSwitch, hEval, hw, hc, hne, hcr, hru]
    cases hU : s.Update <;> simp <;> decide
  case p5 =>
    intro r s e hEval hw hc hdl hru
    have hne : s.Want ≠ s.Current := by rw [hw, hc]; decide
    rw [hw] at hne
    simp [runResource, afterSwitch, hEval, hw, hc, hne, hdl, hru,
      show StateAbsent ≠ StatePresent from by decide,
      show StateAbsent ≠ StateRunning from by decide]
  case p6 =>
    intro r s e hEval hEq hU hRU
    simp [runResource, afterSwitch, hEval, hEq, hU, hRU]

/-- C6 witness: the per-resource conjuncts applied to resources whose
`Evaluate`, `Create`, `Delete` and `Update` fail. -/
theorem run_never_aborts_witness :
    runResource false c6err =
      [Event.write ("service[db]" ++ " " ++ "evaluation exploded")] ∧
    runResource false c6createfail =
      [Event.write ("package[bar]" ++ " is " ++ "absent" ++ ", should be " ++ "present"),
        Event.create "package[bar]",
        Event.write ("package[bar]" ++ " " ++ "create failed")] ++
      (if (false : Bool) then
        [Event.write ("package[bar]" ++ " resource is out of date, will be updated"),
          Event.update "package[bar]"]
       else []) ∧
    runResource false c6deletefail =
      [Event.write ("package[baz]" ++ " is " ++ "present" ++ ", should be " ++ "absent"),
        Event.delete "package[baz]",
        Event.write ("package[baz]" ++ " " ++ "delete failed")] ++
      (if (false : Bool) then
        [Event.write ("package[baz]" ++ " resource is out of date, will be updated"),
          Event.update "package[baz]"]
       else []) ∧
    runResource false c6updatefail =
      [Event.write ("file[conf]" ++ " resource is out of date, will be updated"),
        Event.update "file[conf]",
        Event.write ("file[conf]" ++ " " ++ "update failed")] := by
  refine ⟨?w1, ?w2, ?w3, ?w4⟩
  case w1 => exact run_never_aborts.2.2.1 false c6err "evaluation exploded" rfl
  case w2 =>
    exact run_never_aborts.2.2.2.1 c6createfail
      { Want := "present", Current := "absent", Update := false }
      "create failed" rfl rfl rfl rfl rfl
  case w3 =>
    exact run_never_aborts.2.2.2.2.1 c6deletefail
      { Want := "absent", Current := "present", Update := false }
      "delete failed" rfl rfl rfl rfl rfl
  case w4 =>
    exact run_never_aborts.2.2.2.2.2 c6updatefail
      { Want := "present", Current := "present", Update := true }
      "update failed" rfl rfl rfl rfl

/-- C7: the backlog drain lists the queue with `Recursive: true, Sort: true`
and, walking the returned entries in that store-sorted order, deletes each
entry before any later event of its segment; the published tasks are exactly
the successfully deserialized entries in store-sorted order, failed entries
being skipped after their deletion; the drain itself never returns an
error. -/
theorem checkQueue_drains_in_order :
    ∀ (decode : String → Except String MinionTask) (queueDir : String)
      (nodes : List EtcdNode),
    (checkQueue decode queueDir (.ok nodes)).snd = none ∧
    (checkQueue decode queueDir (.ok nodes)).fst.head? =
      some (MinionEvent.get queueDir true true) ∧
    published (checkQueue decode queueDir (.ok nodes)).fst =
      nodes.filterMap (fun n => (decode n.Value).toOption) ∧
    deletions (checkQueue decode queueDir (.ok nodes)).fst = nodes.map EtcdNode.Key ∧
    drainBacklog decode nodes =
      (nodes.map (fun n =>
        MinionEvent.deleteKey n.Key ::
          (match decode n.Value with
           | .error _ => []
           | .ok t => [MinionEvent.publish t]))).flatten := by
  intro decode queueDir nodes
  refine ⟨rfl, rfl, ?k3, ?k4, drainBacklog_eq_flatten decode nodes⟩
  case k3 =>
    show published (MinionEvent.get queueDir true true ::
      (if nodes.isEmpty then [] else drainBacklog decode nodes)) = _
    cases nodes with
    | nil => rfl
    | cons n rest =>
      simpa [published] using published_drainBacklog decode (n :: rest)
  case k4 =>
    show deletions (MinionEvent.get queueDir true true ::
      (if nodes.isEmpty then [] else drainBacklog decode nodes)) = _
    cases nodes with
    | nil => rfl
    | cons n rest =>
      simpa [deletions] using deletions_drainBacklog decode (n :: rest)

/-- C8 counterexample: a watch response whose action is `expire` — not
`set` — still has its entry deserialized, deleted and its task published,
refuting "a task is deserialized and published only for `set` events". -/
theorem taskListener_publishes_on_expire_cex :
    taskListenerStep demoDecode
      (.ok { Action := "expire",
             Node := { Key := "/gru/minion/abc/queue/t1", Value := "T1" } }) =
      [MinionEvent.deleteKey "/gru/minion/abc/queue/t1",
        MinionEvent.publish demoTask] ∧
    "expire" ≠ "set" := by
  refine ⟨rfl, by decide⟩

/-- C8 (amended): the task listener ignores exactly the events whose action
lowercases to "delete" (and watch errors); for EVERY other action — `set`,
but also `expire` or anything else — it deletes the source key and, when the
value deserializes, publishes the task, the deletion preceding the
publication. -/
theorem taskListener_nondelete_behavior :
    ∀ (decode : String → Except String MinionTask) (resp : WatchResponse)
      (e : String),
    (taskListenerStep decode (.error e) = []) ∧
    (toLowerStr resp.Action = "delete" → taskListenerStep decode (.ok resp) = []) ∧
    (toLowerStr resp.Action ≠ "delete" →
      taskListenerStep decode (.ok resp) =
        MinionEvent.deleteKey resp.Node.Key ::
          (match decode resp.Node.Value with
           | .error _ => []
           | .ok t => [MinionEvent.publish t])) := by
  intro decode resp e
  refine ⟨rfl, ?s2, ?s3⟩
  case s2 => intro h; simp [taskListenerStep, h]
  case s3 => intro h; simp [taskListenerStep, h]

/-- C8 witness: the amended theorem applied to a `delete` and a `set`
event. -/
theorem taskListener_nondelete_behavior_witness :
    taskListenerStep demoDecode
      (.ok { Action := "delete",
             Node := { Key := "/gru/minion/abc/queue/t1", Value := "T1" } }) = [] ∧
    taskListenerStep demoDecode
      (.ok { Action := "set",
             Node := { Key := "/gru/minion/abc/queue/t1", Value := "T1" } }) =
      MinionEvent.deleteKey "/gru/minion/abc/queue/t1" ::
        (match demoDecode "T1" with
         | .error _ => []
         | .ok t => [MinionEvent.publish t]) := by
  constructor
  · exact (taskListener_nondelete_behavior demoDecode
      { Action := "delete",
        Node := { Key := "/gru/minion/abc/queue/t1", Value := "T1" } } "").2.1 rfl
  · exact (taskListener_nondelete_behavior demoDecode
      { Action := "set",
        Node := { Key := "/gru/minion/abc/queue/t1", Value := "T1" } } "").2.2
      (by decide)

/-- C9 counterexample: a task that arrives with a non-empty `Error` field
and whose command succeeds is logged with that stale `Error` — the claim's
"(empty on success)" fails, because the code only assigns `Error` on
failure and never clears it. -/
theorem processTask_stale_error_cex :
    (processTask demoMarshal "/gru/minion/abc/log"
      { output := "ok", err := none } 42 staleTask).snd.snd = none ∧
    (processTask demoMarshal "/gru/minion/abc/log"
      { output := "ok", err := none } 42 staleTask).fst.Error = "stale failure" ∧
    (processTask demoMarshal "/gru/minion/abc/log"
      { output := "ok", err := none } 42 staleTask).snd.fst =
      [MinionEvent.set "/gru/minion/abc/log/t1" "t1:ok:stale failure"] := by
  refine ⟨rfl, rfl, rfl⟩

/-- C9 (amended): every processed task is serialized and written under the
log subtree keyed by its TaskID, whether or not the command failed;
`TimeProcessed` is stamped with the completion time, `Result` holds the
merged output, and `Error` is overwritten with the child's error string when
the command failed and left at its prior value on success (hence empty on
success whenever the submitted task's `Error` was empty); the child's error
is returned. -/
theorem processTask_logs_every_task :
    ∀ (marshal : MinionTask → String) (logDir : String) (cmd : CmdResult)
      (now : Int) (t : MinionTask),
    (processTask marshal logDir cmd now t).fst.TimeProcessed = now ∧
    (processTask marshal logDir cmd now t).fst.Result = cmd.output ∧
    (∀ e, cmd.err = some e → (processTask marshal logDir cmd now t).fst.Error = e) ∧
    (cmd.err = none → (processTask marshal logDir cmd now t).fst.Error = t.Error) ∧
    (processTask marshal logDir cmd now t).snd.fst =
      [MinionEvent.set (logDir ++ "/" ++ t.TaskID)
        (marshal (processTask marshal logDir cmd now t).fst)] ∧
    (processTask marshal logDir cmd now t).snd.snd = cmd.err := by
  intro marshal logDir cmd now t
  cases h : cmd.err with
  | none =>
    refine ⟨?_, ?_, ?_, ?_, ?_, ?_⟩ <;>
      simp [processTask, saveTask, h]
  | some e =>
    refine ⟨?_, ?_, ?_, ?_, ?_, ?_⟩ <;>
      simp [processTask, saveTask, h]

/-- C9 witness: the amended theorem applied to a failing command. -/
theorem processTask_logs_every_task_witness :
    (processTask demoMarshal "/gru/minion/abc/log"
      { output := "boom", err := some "exit status 1" } 7 demoTask).fst.Error =
      "exit status 1" ∧
    (processTask demoMarshal "/gru/minion/abc/log"
      { output := "boom", err := some "exit status 1" } 7 demoTask).snd.fst =
      [MinionEvent.set ("/gru/minion/abc/log" ++ "/" ++ demoTask.TaskID)
        (demoMarshal (processTask demoMarshal "/gru/minion/abc/log"
          { output := "boom", err := some "exit status 1" } 7 demoTask).fst)] := by
  constructor
  · exact (processTask_logs_every_task demoMarshal "/gru/minion/abc/log"
      { output := "boom", err := some "exit status 1" } 7 demoTask).2.2.1
      "exit status 1" rfl
  · exact (processTask_logs_every_task demoMarshal "/gru/minion/abc/log"
      { output := "boom", err := some "exit status 1" } 7 demoTask).2.2.2.2.1

/-- C10: `SetClassifier` checks only the error of `GetValue`, because each
getter's error is bound to the same variable and overwrites the previous
one: when `GetValue` reports no error the classifier is serialized and
written under the classifier directory keyed by the key, no matter what
`GetKey` or `GetDescription` reported; when `GetValue` fails, that error is
returned and nothing is written. -/
theorem setClassifier_checks_only_value_error :
    ∀ (marshalC : SimpleClassifier → String) (classifierDir : String)
      (c : MinionClassifier),
    (c.GetValue.snd = none →
      SetClassifier marshalC classifierDir c =
        ([MinionEvent.set (classifierDir ++ "/" ++ c.GetKey.fst)
          (marshalC { Key := c.GetKey.fst, Description := c.GetDescription.fst,
                      Value := c.GetValue.fst })], none)) ∧
    (∀ e, c.GetValue.snd = some e →
      SetClassifier marshalC classifierDir c = ([], some e)) := by
  intro marshalC classifierDir c
  constructor
  · intro h; simp [SetClassifier, h]
  · intro e h; simp [SetClassifier, h]

/-- C10 witness: a classifier whose key and description getters fail but
whose value getter succeeds is still serialized and written. -/
theorem setClassifier_checks_only_value_error_witness :
    c10demo.GetKey.snd = some "key lookup failed" ∧
    c10demo.GetDescription.snd = some "description lookup failed" ∧
    SetClassifier demoClassifierMarshal "/gru/minion/abc/classifier" c10demo =
      ([MinionEvent.set ("/gru/minion/abc/classifier" ++ "/" ++ c10demo.GetKey.fst)
        (demoClassifierMarshal
          { Key := c10demo.GetKey.fst, Description := c10demo.GetDescription.fst,
            Value := c10demo.GetValue.fst })], none) := by
  refine ⟨rfl, rfl, ?_⟩
  exact (setClassifier_checks_only_value_error demoClassifierMarshal
    "/gru/minion/abc/classifier" c10demo).1 rfl

/-- C5: on a resource map whose ordering targets are all present, the
dependency graph construction succeeds and its edge set is exactly, for
every resource R, the edges R → D for D in R.WantAfter and D → R for D in
R.WantBefore, and nothing else; if some listed target is absent, the
construction aborts with the missing-target error naming a wanting resource
and its missing target. -/
theorem resource_graph_edges :
    (∀ resources : List (String × Resource), allDepsPresent resources →
      (ResourceCollectionGraph resources).snd = none ∧
      (∀ a b, (a, b) ∈ (ResourceCollectionGraph resources).fst.edges ↔
        EdgeSpec resources a b)) ∧
    (∀ resources : List (String × Resource),
      (∃ p ∈ resources, ∃ d, (d ∈ p.snd.WantAfter ∨ d ∈ p.snd.WantBefore) ∧
        alookup resources d = none) →
      ∃ name dep r2,
        (ResourceCollectionGraph resources).snd = some (errMissing name dep) ∧
        alookup resources dep = none ∧ (name, r2) ∈ resources ∧
        (dep ∈ r2.WantAfter ∨ dep ∈ r2.WantBefore)) := by
  constructor
  · intro resources hAll
    unfold ResourceCollectionGraph
    dsimp only
    have hkeys : ∀ x, x ∈ resources.map Prod.fst →
        x ∈ (resources.foldl (fun g p => g.addNode p.fst) Graph.new).nodes := by
      intro x hx
      rw [foldl_addNode_mem]
      exact Or.inr hx
    obtain ⟨h1, h2, h3⟩ :=
      connectResources_ok resources hAll resources _ (fun p hp => hp) hkeys
    refine ⟨h1, ?_⟩
    intro a b
    rw [h3 a b, foldl_addNode_edges]
    simp [Graph.new]
  · intro resources hex
    unfold ResourceCollectionGraph
    dsimp only
    exact connectResources_error resources resources _ hex

/-- C5 witness: both halves applied to concrete collections — `A` after `B`
with `B` present, and `A` after a missing `Z`. -/
theorem resource_graph_edges_witness :
    allDepsPresent res5 ∧
    (ResourceCollectionGraph res5).snd = none ∧
    ((("A", "B") : String × String) ∈ (ResourceCollectionGraph res5).fst.edges ↔
      EdgeSpec res5 "A" "B") ∧
    (∃ name dep r2,
      (ResourceCollectionGraph res5bad).snd = some (errMissing name dep) ∧
      alookup res5bad dep = none ∧ (name, r2) ∈ res5bad ∧
      (dep ∈ r2.WantAfter ∨ dep ∈ r2.WantBefore)) := by
  have hall : allDepsPresent res5 := by unfold allDepsPresent; decide
  refine ⟨hall, (resource_graph_edges.1 res5 hall).1,
    (resource_graph_edges.1 res5 hall).2 "A" "B", ?_⟩
  exact resource_graph_edges.2 res5bad
    ⟨("A", r5Z), by decide, "Z", Or.inl (by decide), rfl⟩

end Gru
